import Mathlib

/-!
Verification development for the `pico-interventions` decoder core
(`src/model/pico_decoder.py`).

Modelling conventions (shallow embedding):
* Tensors are total functions `ℕ → … → ℝ` together with explicitly passed
  dimension/length arguments; reductions are `Finset.range` sums.  The batch
  dimension is omitted: every operation of the source acts on each batch
  element independently, and the mask and caches are shared across the batch.
* Floating point arithmetic is modelled by exact real arithmetic (`ℝ`),
  `torch`'s complex64 by `ℂ`; dtype casts (`.float()`, `.to(dtype)`,
  `.type_as(...)`) are the identity.
* Fallible Python code is modelled with `Except PyErr`; a raised exception
  (`AttributeError`, `AssertionError`, `IndexError`, `TypeError`,
  `NotImplementedError`) is an `Except.error`.
* torch library functions that the source calls are modelled from their
  documented semantics (noted at each definition); everything else is
  translated line by line from `pico_decoder.py`.
-/

/-- Python exceptions that the modelled code can raise. -/
inductive PyErr where
  | attributeError (name : String)
  | assertionError
  | indexError
  | typeError
  | notImplementedError (msg : String)
deriving DecidableEq, Repr

/-- The fields of `src/config/model_config.py::ModelConfig` that the decoder
core reads (`model_type` is omitted: the core never reads it). -/
structure ModelConfig where
  d_model : ℕ
  n_layers : ℕ
  vocab_size : ℕ
  batch_size : ℕ
  max_seq_len : ℕ
  attention_n_heads : ℕ
  attention_n_kv_heads : ℕ
  activation_hidden_dim : ℕ
  norm_eps : ℝ
  position_emb_theta : ℝ
  rank_normalization_strategy : String

/-- `torch.nn.Linear(inDim, outDim, bias=False)` applied to a vector:
`y o = ∑ i, W o i * x i`, where `W` is the stored `weight` of shape
`(outDim, inDim)` (torch's documented `y = x Wᵀ`). -/
noncomputable def linearF (inDim : ℕ) (W : ℕ → ℕ → ℝ) (x : ℕ → ℝ) : ℕ → ℝ :=
  fun o => ∑ i ∈ Finset.range inDim, W o i * x i

/-- `RMSNorm` (source lines 62–93): stores `eps` and the scale `weight`. -/
structure RMSNorm where
  eps : ℝ
  weight : ℕ → ℝ

/-- `RMSNorm._norm`: `x * torch.rsqrt(x.pow(2).mean(-1) + eps)`; the mean is
over the last dimension, of size `d`. -/
noncomputable def RMSNorm.norm (self : RMSNorm) (d : ℕ) (x : ℕ → ℝ) : ℕ → ℝ :=
  fun i => x i * (Real.sqrt ((∑ j ∈ Finset.range d, x j ^ 2) / d + self.eps))⁻¹

/-- `RMSNorm.forward`: `self._norm(x.float()).type_as(x) * self.weight`
(the dtype casts are the identity in the real-number model). -/
noncomputable def RMSNorm.forward (self : RMSNorm) (d : ℕ) (x : ℕ → ℝ) : ℕ → ℝ :=
  fun i => self.norm d x i * self.weight i

/-- The complex frequency tensor of `RoPE`: `seqLen` rows (positions),
`halfDim` columns (channel pairs), entries in `ℂ` (torch `complex64`). -/
structure FreqsCis where
  seqLen : ℕ
  halfDim : ℕ
  entry : ℕ → ℕ → ℂ

/-- Row frequency of `RoPE._setup_freqs_cis`:
`1.0 / (theta ** (torch.arange(0, dim, 2).float() / dim))` at pair index `i`,
i.e. `1 / theta ^ (2 i / dim)` (real exponentiation). -/
noncomputable def ropeFreq (theta : ℝ) (dim : ℕ) (i : ℕ) : ℝ :=
  1 / theta ^ (((2 * i : ℕ) : ℝ) / (dim : ℝ))

/-- One entry of the frequency tensor: `torch.polar(1, p * f_i)`, the unit
complex number `exp((p * f_i) * I) = cos (p * f_i) + i sin (p * f_i)`. -/
noncomputable def freqsCisEntry (theta : ℝ) (dim : ℕ) (p i : ℕ) : ℂ :=
  Complex.exp ((((p : ℝ) * ropeFreq theta dim i : ℝ) : ℂ) * Complex.I)

/-- `RoPE._setup_freqs_cis(seq_len, theta, dim)` (source lines 141–155):
`torch.arange(0, dim, 2)[: dim // 2]` gives `dim / 2` pair indices;
`torch.outer(torch.arange(seq_len), freqs)` gives a `(seq_len, dim / 2)`
table; `torch.polar` turns each angle into a unit complex number. -/
noncomputable def setupFreqsCis (seq_len : ℕ) (theta : ℝ) (dim : ℕ) : FreqsCis :=
  { seqLen := seq_len
    halfDim := dim / 2
    entry := fun p i => freqsCisEntry theta dim p i }

/-- A `RoPE` instance: `self.theta`, `self.dim`, and the registered buffer
`self._freqs_cis` (source lines 121–139). -/
structure RoPE where
  theta : ℝ
  dim : ℕ
  freqs_cis : FreqsCis

/-- The class-level attribute `RoPE._freqs_cis_tensor`, `None` until the
first instance is constructed. -/
structure RoPEClassState where
  freqs_cis_tensor : Option FreqsCis

/-- `RoPE.__init__` (source lines 123–139): sets `theta` and
`dim = d_model // attention_n_heads`; builds the class-level tensor only when
it is still `None` (from this instance's own configuration), otherwise reuses
the existing class-level tensor; registers it as the instance buffer.
Returns the instance together with the updated class-level state. -/
noncomputable def RoPE.init (cfg : ModelConfig) (st : RoPEClassState) :
    RoPE × RoPEClassState :=
  let theta := cfg.position_emb_theta
  let dim := cfg.d_model / cfg.attention_n_heads
  let tensor :=
    match st.freqs_cis_tensor with
    | none => setupFreqsCis cfg.max_seq_len theta dim
    | some t => t
  ({ theta := theta, dim := dim, freqs_cis := tensor },
   { freqs_cis_tensor := some tensor })

/-- Constructing a sequence of `RoPE` instances in one process, threading the
class-level state through (left to right). -/
noncomputable def RoPE.initAll : List ModelConfig → RoPEClassState →
    List RoPE × RoPEClassState
  | [], st => ([], st)
  | cfg :: rest, st =>
    let (r, st1) := RoPE.init cfg st
    let (rs, st2) := RoPE.initAll rest st1
    (r :: rs, st2)

/-- Python slice `t[start:stop]` on the first (position) axis of the
frequency tensor: for `0 ≤ start ≤ stop` the sliced length is
`min stop len - min start len` and row `p` of the slice is row
`min start len + p` of `t`. -/
def FreqsCis.slice (t : FreqsCis) (start stop : ℕ) : FreqsCis :=
  { seqLen := min stop t.seqLen - min start t.seqLen
    halfDim := t.halfDim
    entry := fun p i => t.entry (min start t.seqLen + p) i }

/-- `RoPE.get_freqs_cis` (source lines 157–171): slices
`self._freqs_cis[start_pos:end_pos]` and asserts that the sliced shape equals
`(input_shape[1], input_shape[-1])`, i.e. the sequence length and the
half head dimension of the (complex-viewed) input; a failed `assert` raises
`AssertionError`.  (`assert 0 <= 1 < ndim` always holds for the 4-dimensional
inputs of `RoPE.forward` and is not modelled; the batch dimension is
omitted, so `seq` and `halfDim` are passed directly.) -/
def RoPE.get_freqs_cis (self : RoPE) (seq halfDim start_pos end_pos : ℕ) :
    Except PyErr FreqsCis :=
  let s := self.freqs_cis.slice start_pos end_pos
  if s.seqLen = seq ∧ s.halfDim = halfDim then .ok s else .error .assertionError

/-- `torch.view_as_complex(x.reshape(*, -1, 2))` on the trailing axis:
pair `i` is the complex number `(x (2 i), x (2 i + 1))`. -/
def viewAsComplexPairs (x : ℕ → ℝ) : ℕ → ℂ :=
  fun i => ⟨x (2 * i), x (2 * i + 1)⟩

/-- `torch.view_as_real(z).flatten(-2)`: channel `2 i` is the real part and
channel `2 i + 1` the imaginary part of pair `i`. -/
def viewAsRealPairs (z : ℕ → ℂ) : ℕ → ℝ :=
  fun c => if c % 2 = 0 then (z (c / 2)).re else (z (c / 2)).im

/-- `RoPE.forward(queries, keys, start_pos)` (source lines 173–200): views
queries and keys as complex pairs, selects frequency rows
`[start_pos, start_pos + seq)` via `get_freqs_cis` (which may raise), and
multiplies each pair by the corresponding unit complex number, broadcasting
the table over the head axis.  `queries`/`keys` are indexed
(position, head, channel); `halfDim` is the trailing complex dimension
`head_dim / 2` produced by the reshape. -/
noncomputable def RoPE.forward (self : RoPE) (seq halfDim : ℕ)
    (queries keys : ℕ → ℕ → ℕ → ℝ) (start_pos : ℕ) :
    Except PyErr ((ℕ → ℕ → ℕ → ℝ) × (ℕ → ℕ → ℕ → ℝ)) :=
  match self.get_freqs_cis seq halfDim start_pos (start_pos + seq) with
  | .error e => .error e
  | .ok freqs_cis =>
    let rot : (ℕ → ℕ → ℕ → ℝ) → (ℕ → ℕ → ℕ → ℝ) := fun x s h =>
      viewAsRealPairs (fun i => viewAsComplexPairs (x s h) i * freqs_cis.entry s i)
    .ok (rot queries, rot keys)

/-- The rotation `RoPE.forward` applies to one (position, head) vector when
the consulted table row is position `p`: each adjacent channel pair is
multiplied, as a complex number, by `exp((p * f_i) * I)`. -/
noncomputable def ropeRotate (theta : ℝ) (dim : ℕ) (p : ℕ) (v : ℕ → ℝ) : ℕ → ℝ :=
  viewAsRealPairs (fun i => viewAsComplexPairs v i * freqsCisEntry theta dim p i)

/-- A per-layer KV-cache entry: the key and value tensors, indexed
(position, kv head, channel), with `len` cached positions (the tensors'
shape in the source is `(batch, len, n_kv_heads, head_dim)`). -/
structure KVEntry where
  len : ℕ
  keys : ℕ → ℕ → ℕ → ℝ
  values : ℕ → ℕ → ℕ → ℝ

/-- `Attention` (source lines 210–262): the fields `__init__` stores.
`head_dim = d_model // n_heads` and `n_rep = n_heads // n_kv_heads`; the
projections are the weights of the four bias-free `nn.Linear` modules.
(The claims under verification configure a strategy other than
`"spectral_weight"`, so the `spectral_norm` wrapper branch is the identity
on the stored weights.) -/
structure Attention where
  normalization_strategy : String
  n_heads : ℕ
  n_kv_heads : ℕ
  batch_size : ℕ
  max_seq_len : ℕ
  head_dim : ℕ
  n_rep : ℕ
  q_proj : ℕ → ℕ → ℝ
  k_proj : ℕ → ℕ → ℝ
  v_proj : ℕ → ℕ → ℝ
  o_proj : ℕ → ℕ → ℝ
  rope : RoPE

/-- Exponential on the extended reals as it appears inside a softmax over
masked scores: `exp(-∞) = 0` (a `-∞` additive mask entry removes the
position from the normalization), `exp(r) = Real.exp r` on finite entries.
(`⊤` never occurs in a mask built by the decoder; its value is junk.) -/
noncomputable def expE (x : EReal) : ℝ :=
  if x = ⊥ then 0 else Real.exp x.toReal

/-- `torch.nn.functional.scaled_dot_product_attention` (torch library,
modelled from its documented math): per query position `s` and query head
`h`, scores against all `total` key positions are `⟨Q, K⟩ / sqrt(E)` with
`E = head_dim`, the additive `attn_mask` (broadcast over heads) is added,
softmax normalizes over key positions, and the result weights the values.
With `enable_gqa`, query head `h` reads kv head `h / n_rep` (torch
documents `enable_gqa` as repeating each kv head `n_rep` times
consecutively along the head axis). -/
noncomputable def sdpa (total head_dim : ℕ) (enable_gqa : Bool) (n_rep : ℕ)
    (Q K V : ℕ → ℕ → ℕ → ℝ) (mask : ℕ → ℕ → EReal) : ℕ → ℕ → ℕ → ℝ :=
  fun s h c =>
    let kv : ℕ := if enable_gqa then h / n_rep else h
    let w : ℕ → ℝ := fun j =>
      expE ((((∑ ch ∈ Finset.range head_dim, Q s h ch * K j kv ch) /
        Real.sqrt head_dim : ℝ) : EReal) + mask s j)
    ∑ j ∈ Finset.range total, (w j / ∑ i ∈ Finset.range total, w i) * V j kv c

/-- Modelled from the spec: plain ungrouped multi-head scaled dot-product
attention — "softmax-equivalent" normalization of the masked scaled scores,
each query head reading its own key/value head ("with `n_rep = 1` this is
numerically identical to ungrouped multi-head attention"). -/
noncomputable def plainMultiHeadAttention (total head_dim : ℕ)
    (Q K V : ℕ → ℕ → ℕ → ℝ) (mask : ℕ → ℕ → EReal) : ℕ → ℕ → ℕ → ℝ :=
  fun s h c =>
    let w : ℕ → ℝ := fun j =>
      expE ((((∑ ch ∈ Finset.range head_dim, Q s h ch * K j h ch) /
        Real.sqrt head_dim : ℝ) : EReal) + mask s j)
    ∑ j ∈ Finset.range total, (w j / ∑ i ∈ Finset.range total, w i) * V j h c

/-- `Attention.forward` (source lines 264–344), batch dimension omitted:
projects the input (shape (seq, d_model)) to queries/keys/values, views them
per head, applies RoPE at the cache offset (which may raise an
`AssertionError`), concatenates the prior cache, snapshots the concatenated
keys/values as the returned cache entry when `use_cache`, takes the
`repeat_interleave` fallback on an `"mps"` device, and calls
`scaled_dot_product_attention`.  `mask.to(queries.dtype)` is evaluated
unconditionally: when `mask` is `None` this raises
`AttributeError` (`NoneType` has no attribute `to`). -/
noncomputable def Attention.forward (self : Attention) (d_model seq_len : ℕ)
    (deviceType : String) (input : ℕ → ℕ → ℝ) (mask : Option (ℕ → ℕ → EReal))
    (past_key_values : Option KVEntry) (use_cache : Bool) :
    Except PyErr ((ℕ → ℕ → ℝ) × Option KVEntry) :=
  let queries0 : ℕ → ℕ → ℕ → ℝ := fun s h c =>
    linearF d_model self.q_proj (input s) (h * self.head_dim + c)
  let keys0 : ℕ → ℕ → ℕ → ℝ := fun s h c =>
    linearF d_model self.k_proj (input s) (h * self.head_dim + c)
  let values0 : ℕ → ℕ → ℕ → ℝ := fun s h c =>
    linearF d_model self.v_proj (input s) (h * self.head_dim + c)
  let start_pos := match past_key_values with
    | some kv => kv.len
    | none => 0
  match self.rope.forward seq_len (self.head_dim / 2) queries0 keys0 start_pos with
  | .error e => .error e
  | .ok (queries, keysR) =>
    let keys : ℕ → ℕ → ℕ → ℝ := match past_key_values with
      | some kv => fun j h c => if j < kv.len then kv.keys j h c else keysR (j - kv.len) h c
      | none => keysR
    let values : ℕ → ℕ → ℕ → ℝ := match past_key_values with
      | some kv => fun j h c => if j < kv.len then kv.values j h c else values0 (j - kv.len) h c
      | none => values0
    let total := start_pos + seq_len
    let cached : Option KVEntry :=
      if use_cache then some ⟨total, keys, values⟩ else none
    let apply_gqa := decide (self.n_rep > 1)
    let keys2 : ℕ → ℕ → ℕ → ℝ :=
      if apply_gqa ∧ deviceType = "mps" then
        fun j h c => keys j (h / self.n_rep) c
      else keys
    let values2 : ℕ → ℕ → ℕ → ℝ :=
      if apply_gqa ∧ deviceType = "mps" then
        fun j h c => values j (h / self.n_rep) c
      else values
    let apply_gqa2 : Bool :=
      if apply_gqa ∧ deviceType = "mps" then false else apply_gqa
    match mask with
    | none => .error (.attributeError "to")
    | some m =>
      let attn := sdpa total self.head_dim apply_gqa2 self.n_rep queries keys2 values2 m
      let output : ℕ → ℕ → ℝ := fun s o =>
        linearF (self.n_heads * self.head_dim) self.o_proj
          (fun oc => attn s (oc / self.head_dim) (oc % self.head_dim)) o
      .ok (output, cached)

/-- Reference variant of `Attention.forward` in which the scaled-dot-product
core is the spec's plain ungrouped multi-head attention (no grouped-query
head mapping, no key/value repetition); identical to `Attention.forward` in
every other respect.  Used to state the `n_rep = 1` equivalence. -/
noncomputable def Attention.forwardPlain (self : Attention) (d_model seq_len : ℕ)
    (input : ℕ → ℕ → ℝ) (mask : Option (ℕ → ℕ → EReal))
    (past_key_values : Option KVEntry) (use_cache : Bool) :
    Except PyErr ((ℕ → ℕ → ℝ) × Option KVEntry) :=
  let queries0 : ℕ → ℕ → ℕ → ℝ := fun s h c =>
    linearF d_model self.q_proj (input s) (h * self.head_dim + c)
  let keys0 : ℕ → ℕ → ℕ → ℝ := fun s h c =>
    linearF d_model self.k_proj (input s) (h * self.head_dim + c)
  let values0 : ℕ → ℕ → ℕ → ℝ := fun s h c =>
    linearF d_model self.v_proj (input s) (h * self.head_dim + c)
  let start_pos := match past_key_values with
    | some kv => kv.len
    | none => 0
  match self.rope.forward seq_len (self.head_dim / 2) queries0 keys0 start_pos with
  | .error e => .error e
  | .ok (queries, keysR) =>
    let keys : ℕ → ℕ → ℕ → ℝ := match past_key_values with
      | some kv => fun j h c => if j < kv.len then kv.keys j h c else keysR (j - kv.len) h c
      | none => keysR
    let values : ℕ → ℕ → ℕ → ℝ := match past_key_values with
      | some kv => fun j h c => if j < kv.len then kv.values j h c else values0 (j - kv.len) h c
      | none => values0
    let total := start_pos + seq_len
    let cached : Option KVEntry :=
      if use_cache then some ⟨total, keys, values⟩ else none
    match mask with
    | none => .error (.attributeError "to")
    | some m =>
      let attn := plainMultiHeadAttention total self.head_dim queries keys values m
      let output : ℕ → ℕ → ℝ := fun s o =>
        linearF (self.n_heads * self.head_dim) self.o_proj
          (fun oc => attn s (oc / self.head_dim) (oc % self.head_dim)) o
      .ok (output, cached)

/-- The roped projection tensor of `Attention.forward` with no prior cache
(start position 0): position `s`, head `h` of the projected input, rotated
by row `s` of the instance's frequency buffer. -/
noncomputable def Attention.ropedProj (a : Attention) (d_model : ℕ)
    (proj : ℕ → ℕ → ℝ) (x : ℕ → ℕ → ℝ) : ℕ → ℕ → ℕ → ℝ :=
  fun s h => viewAsRealPairs (fun i =>
    viewAsComplexPairs (fun c => linearF d_model proj (x s) (h * a.head_dim + c)) i *
      a.rope.freqs_cis.entry s i)

/-- The value tensor of `Attention.forward` (values are not roped). -/
noncomputable def Attention.valuesProj (a : Attention) (d_model : ℕ)
    (x : ℕ → ℕ → ℝ) : ℕ → ℕ → ℕ → ℝ :=
  fun s h c => linearF d_model a.v_proj (x s) (h * a.head_dim + c)

/-- The scaled-dot-product core of `Attention.forward` on the no-cache
success path, including the grouped-query / `"mps"`-fallback selection. -/
noncomputable def Attention.coreNoCache (a : Attention) (d_model seq : ℕ)
    (dev : String) (x : ℕ → ℕ → ℝ) (m : ℕ → ℕ → EReal) : ℕ → ℕ → ℕ → ℝ :=
  let keys := a.ropedProj d_model a.k_proj x
  let values := a.valuesProj d_model x
  let apply_gqa := decide (a.n_rep > 1)
  let keys2 := if apply_gqa ∧ dev = "mps" then
    fun j h c => keys j (h / a.n_rep) c else keys
  let values2 := if apply_gqa ∧ dev = "mps" then
    fun j h c => values j (h / a.n_rep) c else values
  let apply_gqa2 := if apply_gqa ∧ dev = "mps" then false else apply_gqa
  sdpa seq a.head_dim apply_gqa2 a.n_rep (a.ropedProj d_model a.q_proj x)
    keys2 values2 m

/-- The output of `Attention.forward` on the no-cache success path. -/
noncomputable def Attention.outNoCache (a : Attention) (d_model seq : ℕ)
    (dev : String) (x : ℕ → ℕ → ℝ) (m : ℕ → ℕ → EReal) : ℕ → ℕ → ℝ :=
  fun s o => linearF (a.n_heads * a.head_dim) a.o_proj
    (fun oc => a.coreNoCache d_model seq dev x m s (oc / a.head_dim)
      (oc % a.head_dim)) o

/-- `SwiGLU` (source lines 354–385): the three bias-free projections (the
`spectral_norm` branch on `w_2` is the identity for the strategies under
verification). -/
structure SwiGLU where
  w_0 : ℕ → ℕ → ℝ
  w_1 : ℕ → ℕ → ℝ
  w_2 : ℕ → ℕ → ℝ

/-- `F.silu(z) = z * sigmoid(z)` with `sigmoid(z) = 1 / (1 + exp(-z))`. -/
noncomputable def silu (z : ℝ) : ℝ := z * (1 / (1 + Real.exp (-z)))

/-- `SwiGLU.forward`: `w_2(F.silu(w_0 x) * w_1 x)`; `d_model` is the input
width and `hidden` the `activation_hidden_dim`. -/
noncomputable def SwiGLU.forward (self : SwiGLU) (d_model hidden : ℕ)
    (x : ℕ → ℝ) : ℕ → ℝ :=
  linearF hidden self.w_2
    (fun i => silu (linearF d_model self.w_0 x i) * linearF d_model self.w_1 x i)

/-- `PicoDecoderBlock` (source lines 395–435). -/
structure PicoDecoderBlock where
  attention : Attention
  swiglu : SwiGLU
  attention_norm : RMSNorm
  swiglu_norm : RMSNorm

/-- `PicoDecoderBlock.forward`: attention over the normed input with a
residual connection, then SwiGLU over the normed sum with a residual
connection; the cache entry passes through unchanged. -/
noncomputable def PicoDecoderBlock.forward (self : PicoDecoderBlock)
    (d_model hidden seq_len : ℕ) (deviceType : String) (input : ℕ → ℕ → ℝ)
    (mask : Option (ℕ → ℕ → EReal)) (past_key_values : Option KVEntry)
    (use_cache : Bool) : Except PyErr ((ℕ → ℕ → ℝ) × Option KVEntry) :=
  match self.attention.forward d_model seq_len deviceType
      (fun s => self.attention_norm.forward d_model (input s))
      mask past_key_values use_cache with
  | .error e => .error e
  | .ok (attention_output, cached_key_values) =>
    let h : ℕ → ℕ → ℝ := fun s i => input s i + attention_output s i
    let out : ℕ → ℕ → ℝ := fun s i =>
      h s i + self.swiglu.forward d_model hidden (self.swiglu_norm.forward d_model (h s)) i
    .ok (out, cached_key_values)

/-- The output of `PicoDecoderBlock.forward` on the no-cache success
path: attention over the normed input with a residual connection, then
SwiGLU over the normed sum with a residual connection. -/
noncomputable def PicoDecoderBlock.outNoCache (self : PicoDecoderBlock)
    (d_model hidden seq : ℕ) (dev : String) (x : ℕ → ℕ → ℝ)
    (m : ℕ → ℕ → EReal) : ℕ → ℕ → ℝ :=
  let att := self.attention.outNoCache d_model seq dev
    (fun s => self.attention_norm.forward d_model (x s)) m
  let h : ℕ → ℕ → ℝ := fun s i => x s i + att s i
  fun s i =>
    h s i + self.swiglu.forward d_model hidden (self.swiglu_norm.forward d_model (h s)) i

/-- `PicoDecoder` (source lines 445–473): exactly the attributes
`__init__` assigns — the configuration and the four submodule groups. -/
structure PicoDecoder where
  config : ModelConfig
  embedding_proj : ℕ → ℕ → ℝ
  layers : List PicoDecoderBlock
  output_norm : RMSNorm
  de_embedding_proj : ℕ → ℕ → ℝ

/-- The layer loop of `PicoDecoder.forward` (source lines 583–593): runs the
blocks in order on the hidden state, fetching layer `idx`'s prior cache from
`past_key_values[idx]` (an out-of-range index raises `IndexError`), and
collects each layer's returned cache entry. -/
noncomputable def PicoDecoder.runLayers (d_model hidden seq_len : ℕ)
    (deviceType : String) (mask : Option (ℕ → ℕ → EReal))
    (past_key_values : Option (List (Option KVEntry))) (use_cache : Bool) :
    List PicoDecoderBlock → ℕ → (ℕ → ℕ → ℝ) →
    Except PyErr ((ℕ → ℕ → ℝ) × List (Option KVEntry))
  | [], _, h => .ok (h, [])
  | layer :: rest, idx, h =>
    match (match past_key_values with
      | none => Except.ok none
      | some caches =>
        match caches.get? idx with
        | some e => Except.ok e
        | none => Except.error PyErr.indexError) with
    | .error e => .error e
    | .ok layer_past =>
      match layer.forward d_model hidden seq_len deviceType h mask layer_past
          use_cache with
      | .error e => .error e
      | .ok (h2, layer_cached_key_values) =>
        match PicoDecoder.runLayers d_model hidden seq_len deviceType mask
            past_key_values use_cache rest (idx + 1) h2 with
        | .error e => .error e
        | .ok (hOut, restCached) =>
          .ok (hOut, layer_cached_key_values :: restCached)

/-- The hidden state after the layer loop on the no-cache success path. -/
noncomputable def PicoDecoder.runLayersOut (d_model hidden seq : ℕ)
    (dev : String) (m : ℕ → ℕ → EReal) :
    List PicoDecoderBlock → (ℕ → ℕ → ℝ) → (ℕ → ℕ → ℝ)
  | [], h => h
  | layer :: rest, h =>
    PicoDecoder.runLayersOut d_model hidden seq dev m rest
      (layer.outNoCache d_model hidden seq dev h m)

/-- `PicoDecoder.forward` (source lines 536–599), batch dimension omitted:
embeds the token ids, derives `start_pos` from
`past_key_values[0][0].shape[1]` (an empty tuple raises `IndexError`, a
`None` layer entry raises `TypeError` on subscripting), builds the causal
mask only when `seq_len > 1` — `torch.triu(torch.full((s, s), -inf), 1)`,
left-padded with `start_pos` zero columns when a cache is present — runs the
layers, applies the output norm and the vocabulary projection (`.float()` is
the identity here), and returns the per-layer cache tuple when `use_cache`. -/
noncomputable def PicoDecoder.forward (self : PicoDecoder) (seq_len : ℕ)
    (deviceType : String) (input_ids : ℕ → ℕ)
    (past_key_values : Option (List (Option KVEntry))) (use_cache : Bool) :
    Except PyErr ((ℕ → ℕ → ℝ) × Option (List (Option KVEntry))) :=
  let h0 : ℕ → ℕ → ℝ := fun s => self.embedding_proj (input_ids s)
  match (match past_key_values with
    | none => Except.ok 0
    | some caches =>
      match caches.get? 0 with
      | none => Except.error PyErr.indexError
      | some none => Except.error PyErr.typeError
      | some (some e) => Except.ok e.len) with
  | .error e => .error e
  | .ok start_pos =>
    let base_mask : ℕ → ℕ → EReal := fun i j => if i + 1 ≤ j then ⊥ else 0
    let mask : Option (ℕ → ℕ → EReal) :=
      if seq_len > 1 then
        some (match past_key_values with
          | some _ => fun i j => if j < start_pos then 0 else base_mask i (j - start_pos)
          | none => base_mask)
      else none
    match PicoDecoder.runLayers self.config.d_model self.config.activation_hidden_dim
        seq_len deviceType mask past_key_values use_cache self.layers 0 h0 with
    | .error e => .error e
    | .ok (h, cached_key_values) =>
      let hN : ℕ → ℕ → ℝ := fun s => self.output_norm.forward self.config.d_model (h s)
      let logits : ℕ → ℕ → ℝ := fun s =>
        linearF self.config.d_model self.de_embedding_proj (hN s)
      .ok (logits, if use_cache then some cached_key_values else none)

/-- The incremental-generation protocol of the cache-equivalence property:
feed the tokens to `PicoDecoder.forward` one at a time with
`use_cache = True`, threading each call's returned per-layer cache tuple
into the next call, and collect the per-step logits. -/
noncomputable def PicoDecoder.incrementalForward (self : PicoDecoder)
    (deviceType : String) :
    List ℕ → Option (List (Option KVEntry)) → Except PyErr (List (ℕ → ℕ → ℝ))
  | [], _ => .ok []
  | tok :: rest, past =>
    match self.forward 1 deviceType (fun _ => tok) past true with
    | .error e => .error e
    | .ok (logits, newCache) =>
      match self.incrementalForward deviceType rest newCache with
      | .error e => .error e
      | .ok more => .ok (logits :: more)

/-- A weight matrix flagged as a regularization target, with its shape
(`rows` = torch `out_features`, `cols` = torch `in_features`). -/
structure WeightMat where
  rows : ℕ
  cols : ℕ
  entry : ℕ → ℕ → ℝ

/-- `torch.norm(A, p="fro")` of an `rows × cols` matrix. -/
noncomputable def frobNorm (rows cols : ℕ) (A : ℕ → ℕ → ℝ) : ℝ :=
  Real.sqrt (∑ i ∈ Finset.range rows, ∑ j ∈ Finset.range cols, A i j ^ 2)

/-- The Gram matrix `Wᵀ @ W` of a `rows × cols` weight: a `cols × cols`
matrix with entries `∑ k, W k i * W k j`. -/
noncomputable def gramMatrix (rows : ℕ) (W : ℕ → ℕ → ℝ) : ℕ → ℕ → ℝ :=
  fun i j => ∑ k ∈ Finset.range rows, W k i * W k j

/-- One summand of `PicoDecoder.get_orthogonality_loss`:
`torch.norm(Wᵀ @ W - eye(cols), p="fro")`. -/
noncomputable def orthogonalityTerm (W : WeightMat) : ℝ :=
  frobNorm W.cols W.cols
    (fun i j => gramMatrix W.rows W.entry i j - if i = j then 1 else 0)

/-- The modules of a `PicoDecoder` whose names match `TARGET_MODULES =
["attention.v_proj", "attention.o_proj", "swiglu.w_2"]` (source lines
453–457): under `named_modules()` these are exactly
`layers.<i>.attention.v_proj`, `layers.<i>.attention.o_proj` and
`layers.<i>.swiglu.w_2` for every layer `i`.  Shapes: `v_proj` is
`Linear(d_model, n_kv_heads * head_dim)`, `o_proj` is
`Linear(n_heads * head_dim, d_model)`, `w_2` is
`Linear(activation_hidden_dim, d_model)`, each stored as an
`(out_features, in_features)` weight, with
`head_dim = d_model / attention_n_heads`. -/
noncomputable def PicoDecoder.targetMatrices (self : PicoDecoder) : List WeightMat :=
  let d := self.config.d_model
  let head_dim := d / self.config.attention_n_heads
  (self.layers.map (fun l =>
    [WeightMat.mk (self.config.attention_n_kv_heads * head_dim) d l.attention.v_proj,
     WeightMat.mk d (self.config.attention_n_heads * head_dim) l.attention.o_proj,
     WeightMat.mk d self.config.activation_hidden_dim l.swiglu.w_2])).flatten

/-- `PicoDecoder.get_orthogonality_loss` (source lines 488–506): sums
`torch.norm(Wᵀ W - I, p="fro")` over the target matrices (the running total
starts at `0.0`; device moves are identities here). -/
noncomputable def PicoDecoder.get_orthogonality_loss (self : PicoDecoder) : ℝ :=
  (self.targetMatrices.map orthogonalityTerm).sum

/-- `PicoDecoder.get_frobenius_loss` (source lines 508–523): sums
`torch.norm(W, p="fro")` over the target matrices. -/
noncomputable def PicoDecoder.get_frobenius_loss (self : PicoDecoder) : ℝ :=
  (self.targetMatrices.map (fun W => frobNorm W.rows W.cols W.entry)).sum

/-- The instance attribute names `PicoDecoder.__init__` assigns on `self`
(source lines 459–473): `config`, `embedding_proj`, `layers`, `output_norm`,
`de_embedding_proj` — and no others; in particular it never assigns
`normalization_strategy`. -/
def PicoDecoder.initAttrNames : List String :=
  ["config", "embedding_proj", "layers", "output_norm", "de_embedding_proj"]

/-- The instance attribute names `Attention.__init__` assigns on `self`
(source lines 231–262): it is the `Attention` submodule, not the
`PicoDecoder`, that gets a `normalization_strategy` attribute. -/
def Attention.initAttrNames : List String :=
  ["normalization_strategy", "n_heads", "n_kv_heads", "batch_size",
   "max_seq_len", "head_dim", "n_rep", "q_proj", "k_proj", "v_proj",
   "o_proj", "rope"]

/-- Python attribute lookup on an object whose `__init__` assigned exactly
the attributes in `assigned` (with `attrValue` giving each one's value):
reading a name that was never assigned raises `AttributeError` (for an
`nn.Module`, `__getattr__` falls through parameters, buffers and submodules
and then raises). -/
def pyGetAttr (assigned : List String) (attrValue : String → String)
    (name : String) : Except PyErr String :=
  if name ∈ assigned then .ok (attrValue name) else .error (.attributeError name)

/-- `PicoDecoder.get_normalization_loss` (source lines 525–534): reads
`self.normalization_strategy` (an attribute lookup on the `PicoDecoder`
instance, which raises if `__init__` never assigned it), then dispatches:
`"orthogonality_loss"` and `"frobenius_loss"` return the corresponding
loss; any other value raises
`NotImplementedError("Normalization strategy <s> not implemented")`. -/
noncomputable def PicoDecoder.get_normalization_loss (self : PicoDecoder)
    (attrValue : String → String) : Except PyErr ℝ :=
  match pyGetAttr PicoDecoder.initAttrNames attrValue "normalization_strategy" with
  | .error e => .error e
  | .ok strategy =>
    if strategy = "orthogonality_loss" then .ok self.get_orthogonality_loss
    else if strategy = "frobenius_loss" then .ok self.get_frobenius_loss
    else .error (.notImplementedError
      ("Normalization strategy " ++ strategy ++ " not implemented"))

/-- A matrix has orthonormal columns when its Gram matrix is the identity:
the columns are unit vectors, pairwise orthogonal. -/
def OrthonormalColumns (W : WeightMat) : Prop :=
  ∀ i < W.cols, ∀ j < W.cols,
    (∑ k ∈ Finset.range W.rows, W.entry k i * W.entry k j) =
      if i = j then 1 else 0

/-- A concrete configuration for witnesses: a 1-layer model, width 2, one
head, one kv head, maximum sequence length 4. -/
noncomputable def cfg0 : ModelConfig :=
  { d_model := 2, n_layers := 1, vocab_size := 2, batch_size := 1,
    max_seq_len := 4, attention_n_heads := 1, attention_n_kv_heads := 1,
    activation_hidden_dim := 2, norm_eps := 1, position_emb_theta := 1,
    rank_normalization_strategy := "bogus" }

/-- The same configuration with maximum sequence length 1 (for the
frequency-table sharing counterexample). -/
noncomputable def cfgShort : ModelConfig :=
  { cfg0 with max_seq_len := 1 }

/-- A concrete `RMSNorm` with unit weight. -/
noncomputable def rmsNorm0 : RMSNorm := { eps := 1, weight := fun _ => 1 }

/-- A concrete `RoPE` whose buffer is its own configuration's table. -/
noncomputable def rope0 : RoPE :=
  { theta := 1, dim := 2, freqs_cis := setupFreqsCis 4 1 2 }

/-- A concrete `Attention` with zero weights and `rope0`. -/
noncomputable def attention0 : Attention :=
  { normalization_strategy := "bogus", n_heads := 1, n_kv_heads := 1,
    batch_size := 1, max_seq_len := 4, head_dim := 2, n_rep := 1,
    q_proj := fun _ _ => 0, k_proj := fun _ _ => 0, v_proj := fun _ _ => 0,
    o_proj := fun _ _ => 0, rope := rope0 }

/-- A concrete `SwiGLU` with zero weights. -/
noncomputable def swiglu0 : SwiGLU :=
  { w_0 := fun _ _ => 0, w_1 := fun _ _ => 0, w_2 := fun _ _ => 0 }

/-- A concrete decoder block. -/
noncomputable def block0 : PicoDecoderBlock :=
  { attention := attention0, swiglu := swiglu0,
    attention_norm := rmsNorm0, swiglu_norm := rmsNorm0 }

/-- A concrete 1-layer `PicoDecoder` built from `cfg0`. -/
noncomputable def M0 : PicoDecoder :=
  { config := cfg0, embedding_proj := fun _ _ => 0, layers := [block0],
    output_norm := rmsNorm0, de_embedding_proj := fun _ _ => 0 }

/-! ## Theorems -/

/-- C4: `PicoDecoder.__init__` never assigns `normalization_strategy` on the
`PicoDecoder` object (only `Attention.__init__` sets it, on the `Attention`
submodule), so every call to `PicoDecoder.get_normalization_loss` — for
every strategy value, including the valid `"orthogonality_loss"` and
`"frobenius_loss"` — fails on the attribute read before any strategy
dispatch happens. -/
theorem get_normalization_loss_always_fails_on_attribute_read :
    "normalization_strategy" ∈ Attention.initAttrNames ∧
    "normalization_strategy" ∉ PicoDecoder.initAttrNames ∧
    ∀ (M : PicoDecoder) (attrValue : String → String),
      M.get_normalization_loss attrValue =
        .error (.attributeError "normalization_strategy") := by
  refine ⟨by decide, by decide, fun M attrValue => ?_⟩
  simp [PicoDecoder.get_normalization_loss, pyGetAttr, PicoDecoder.initAttrNames]

/-- C3 (code evaluated at the failing input): on a decoder whose configured
strategy is `"bogus"`, `get_normalization_loss` raises
`AttributeError("normalization_strategy")` — not the
`NotImplementedError` naming the unimplemented strategy that the dispatch
code below the attribute read would raise. -/
theorem get_normalization_loss_bogus_raises_attributeError :
    M0.get_normalization_loss (fun _ => "bogus") =
      .error (.attributeError "normalization_strategy") ∧
    M0.get_normalization_loss (fun _ => "bogus") ≠
      .error (.notImplementedError "Normalization strategy bogus not implemented") := by
  constructor
  · simp [PicoDecoder.get_normalization_loss, pyGetAttr, PicoDecoder.initAttrNames]
  · simp [PicoDecoder.get_normalization_loss, pyGetAttr, PicoDecoder.initAttrNames]

/-- Once the class-level table exists, constructing further `RoPE` instances
reuses it unchanged, whatever their configuration. -/
theorem RoPE.initAll_built (T : FreqsCis) : ∀ cfgs : List ModelConfig,
    (∀ r ∈ (RoPE.initAll cfgs { freqs_cis_tensor := some T }).1, r.freqs_cis = T) ∧
    (RoPE.initAll cfgs { freqs_cis_tensor := some T }).2 =
      { freqs_cis_tensor := some T } := by
  intro cfgs
  induction cfgs with
  | nil => simp [RoPE.initAll]
  | cons cfg rest ih =>
    refine ⟨?_, ?_⟩
    · intro r hr
      simp only [RoPE.initAll, RoPE.init] at hr
      rcases List.mem_cons.mp hr with h | h
      · subst h; rfl
      · exact (ih.1) r (by simpa [RoPE.initAll, RoPE.init] using h)
    · simp only [RoPE.initAll, RoPE.init]
      exact ih.2

/-- C6 counterexample: construct a first `RoPE` from a configuration with
maximum sequence length 1, then a second from a configuration with maximum
sequence length 2 (same theta and dimension).  The second instance's buffer
is the first instance's table — not the table of its own configuration
triple (the tables differ already in their number of rows). -/
theorem rope_second_instance_table_is_not_its_own :
    (RoPE.init { cfgShort with max_seq_len := 2 }
        (RoPE.init cfgShort { freqs_cis_tensor := none }).2).1.freqs_cis ≠
      setupFreqsCis 2 cfgShort.position_emb_theta
        (cfgShort.d_model / cfgShort.attention_n_heads) := by
  intro h
  have hlen := congrArg FreqsCis.seqLen h
  simp [RoPE.init, setupFreqsCis, cfgShort, cfg0] at hlen

/-- C6 amended: the frequency table is lazily built at the first `RoPE`
construction, from that first instance's configuration triple, and every
later instance in the process shares that same table by reference,
regardless of its own configuration; once built, the class-level table is
never mutated by further constructions. -/
theorem rope_table_built_once_shared_by_all (cfg0 : ModelConfig)
    (cfgs : List ModelConfig) :
    (∀ r ∈ (RoPE.initAll (cfg0 :: cfgs) { freqs_cis_tensor := none }).1,
        r.freqs_cis = setupFreqsCis cfg0.max_seq_len cfg0.position_emb_theta
          (cfg0.d_model / cfg0.attention_n_heads)) ∧
    (RoPE.initAll (cfg0 :: cfgs) { freqs_cis_tensor := none }).2 =
      { freqs_cis_tensor := some (setupFreqsCis cfg0.max_seq_len
          cfg0.position_emb_theta (cfg0.d_model / cfg0.attention_n_heads)) } ∧
    ∀ (cfg : ModelConfig) (T : FreqsCis),
      (RoPE.init cfg { freqs_cis_tensor := some T }).2 =
        { freqs_cis_tensor := some T } := by
  have hbuilt := RoPE.initAll_built (setupFreqsCis cfg0.max_seq_len
    cfg0.position_emb_theta (cfg0.d_model / cfg0.attention_n_heads)) cfgs
  refine ⟨?_, ?_, fun cfg T => rfl⟩
  · intro r hr
    simp only [RoPE.initAll, RoPE.init] at hr
    rcases List.mem_cons.mp hr with h | h
    · subst h; rfl
    · exact hbuilt.1 r (by simpa [RoPE.initAll, RoPE.init] using h)
  · simp only [RoPE.initAll, RoPE.init]
    exact hbuilt.2

/-- C7: a `RoPE` whose buffer is the table built for `L` positions fails the
shape assertion (an `AssertionError`, not a silent truncation) whenever
`start_pos + seq > L`, and succeeds when `start_pos + seq ≤ L`, returning
exactly the table rows `[start_pos, start_pos + seq)`. -/
theorem rope_get_freqs_cis_bounds (L : ℕ) (theta : ℝ) (dim : ℕ) (self : RoPE)
    (hbuf : self.freqs_cis = setupFreqsCis L theta dim)
    (start_pos seq : ℕ) (hseq : 1 ≤ seq) :
    (L < start_pos + seq →
      self.get_freqs_cis seq (dim / 2) start_pos (start_pos + seq) =
        .error .assertionError) ∧
    (start_pos + seq ≤ L →
      self.get_freqs_cis seq (dim / 2) start_pos (start_pos + seq) =
        .ok { seqLen := seq, halfDim := dim / 2,
              entry := fun p i => freqsCisEntry theta dim (start_pos + p) i }) := by
  constructor
  · intro hover
    rw [RoPE.get_freqs_cis, if_neg]
    rintro ⟨h1, -⟩
    rw [hbuf] at h1
    simp only [FreqsCis.slice, setupFreqsCis] at h1
    omega
  · intro hin
    have h1 : min (start_pos + seq) L = start_pos + seq := by omega
    have h2 : min start_pos L = start_pos := by omega
    rw [RoPE.get_freqs_cis, hbuf, if_pos]
    · congr 1
      simp only [FreqsCis.slice, setupFreqsCis, h1, h2]
      refine FreqsCis.mk.injEq .. ▸ ⟨by omega, rfl, rfl⟩
    · constructor
      · simp only [FreqsCis.slice, setupFreqsCis, h1, h2]; omega
      · rfl

/-- C7 witness: `rope0` holds the table for 4 positions; requesting
positions `[4, 5)` is out of range and raises the assertion error. -/
theorem rope_get_freqs_cis_bounds_witness :
    rope0.get_freqs_cis 1 (2 / 2) 4 (4 + 1) = .error .assertionError :=
  (rope_get_freqs_cis_bounds 4 1 2 rope0 rfl 4 1 (by norm_num)).1 (by norm_num)

/-- A sum over `2 * m` indices regrouped into `m` adjacent pairs. -/
theorem sum_range_pair (m : ℕ) (f : ℕ → ℝ) :
    ∑ c ∈ Finset.range (2 * m), f c =
      ∑ i ∈ Finset.range m, (f (2 * i) + f (2 * i + 1)) := by
  induction m with
  | zero => simp
  | succ n ih =>
    have h : 2 * (n + 1) = (2 * n + 1) + 1 := by ring
    rw [h, Finset.sum_range_succ, Finset.sum_range_succ, Finset.sum_range_succ, ih]
    ring

/-- The real part of a frequency-table entry is the cosine of its angle. -/
theorem freqsCisEntry_re (theta : ℝ) (dim : ℕ) (p i : ℕ) :
    (freqsCisEntry theta dim p i).re = Real.cos ((p : ℝ) * ropeFreq theta dim i) := by
  rw [freqsCisEntry, Complex.exp_ofReal_mul_I_re]

/-- The imaginary part of a frequency-table entry is the sine of its angle. -/
theorem freqsCisEntry_im (theta : ℝ) (dim : ℕ) (p i : ℕ) :
    (freqsCisEntry theta dim p i).im = Real.sin ((p : ℝ) * ropeFreq theta dim i) := by
  rw [freqsCisEntry, Complex.exp_ofReal_mul_I_im]

/-- The even channel of `ropeRotate` is the 2D-rotation cosine component. -/
theorem ropeRotate_even (theta : ℝ) (dim : ℕ) (p : ℕ) (v : ℕ → ℝ) (i : ℕ) :
    ropeRotate theta dim p v (2 * i) =
      v (2 * i) * Real.cos ((p : ℝ) * ropeFreq theta dim i) -
        v (2 * i + 1) * Real.sin ((p : ℝ) * ropeFreq theta dim i) := by
  have hmod : (2 * i) % 2 = 0 := by omega
  have hdiv : (2 * i) / 2 = i := by omega
  simp only [ropeRotate, viewAsRealPairs, viewAsComplexPairs, hmod, hdiv,
    if_pos, Complex.mul_re, freqsCisEntry_re, freqsCisEntry_im]

/-- The odd channel of `ropeRotate` is the 2D-rotation sine component. -/
theorem ropeRotate_odd (theta : ℝ) (dim : ℕ) (p : ℕ) (v : ℕ → ℝ) (i : ℕ) :
    ropeRotate theta dim p v (2 * i + 1) =
      v (2 * i) * Real.sin ((p : ℝ) * ropeFreq theta dim i) +
        v (2 * i + 1) * Real.cos ((p : ℝ) * ropeFreq theta dim i) := by
  have hmod : (2 * i + 1) % 2 = 1 := by omega
  have hdiv : (2 * i + 1) / 2 = i := by omega
  simp only [ropeRotate, viewAsRealPairs, viewAsComplexPairs, hmod, hdiv,
    Complex.mul_im, freqsCisEntry_re, freqsCisEntry_im]
  norm_num

/-- C9: the rotary encoding applied by `RoPE.forward` rotates each adjacent
channel pair `(v (2i), v (2i+1))` by the angle `p * theta^(-2i/dim)` as a
standard 2D rotation, and consequently, for every vector of even per-head
dimension, the Euclidean norm of the rotated vector equals the norm of the
vector (unitary transform, exact in the real-number model). -/
theorem rope_rotation_is_unitary (theta : ℝ) (dim : ℕ) (p : ℕ) (v : ℕ → ℝ) :
    (0 < theta → ∀ i : ℕ,
      ropeFreq theta dim i = theta ^ (-(((2 * i : ℕ) : ℝ) / (dim : ℝ)))) ∧
    (∀ i : ℕ,
      ropeRotate theta dim p v (2 * i) =
        v (2 * i) * Real.cos ((p : ℝ) * ropeFreq theta dim i) -
          v (2 * i + 1) * Real.sin ((p : ℝ) * ropeFreq theta dim i) ∧
      ropeRotate theta dim p v (2 * i + 1) =
        v (2 * i) * Real.sin ((p : ℝ) * ropeFreq theta dim i) +
          v (2 * i + 1) * Real.cos ((p : ℝ) * ropeFreq theta dim i)) ∧
    (dim % 2 = 0 →
      Real.sqrt (∑ c ∈ Finset.range dim, ropeRotate theta dim p v c ^ 2) =
        Real.sqrt (∑ c ∈ Finset.range dim, v c ^ 2)) := by
  refine ⟨?_, fun i => ⟨ropeRotate_even theta dim p v i, ropeRotate_odd theta dim p v i⟩, ?_⟩
  · intro htheta i
    rw [ropeFreq, Real.rpow_neg htheta.le, one_div]
  · intro heven
    obtain ⟨m, hm⟩ : ∃ m, dim = 2 * m := ⟨dim / 2, by omega⟩
    subst hm
    have hsum : ∑ c ∈ Finset.range (2 * m), ropeRotate theta (2 * m) p v c ^ 2 =
        ∑ c ∈ Finset.range (2 * m), v c ^ 2 := by
      rw [sum_range_pair, sum_range_pair]
      refine Finset.sum_congr rfl fun i _ => ?_
      rw [ropeRotate_even, ropeRotate_odd]
      have hpyth := Real.sin_sq_add_cos_sq ((p : ℝ) * ropeFreq theta (2 * m) i)
      linear_combination (v (2 * i) ^ 2 + v (2 * i + 1) ^ 2) * hpyth
    rw [hsum]

/-- Sum of a list of non-negative reals is zero exactly when every element
is zero. -/
theorem list_sum_eq_zero_iff_of_nonneg :
    ∀ l : List ℝ, (∀ x ∈ l, 0 ≤ x) → (l.sum = 0 ↔ ∀ x ∈ l, x = 0) := by
  intro l
  induction l with
  | nil => simp
  | cons a rest ih =>
    intro hpos
    have ha : 0 ≤ a := hpos a (by simp)
    have hrest : ∀ x ∈ rest, 0 ≤ x := fun x hx => hpos x (by simp [hx])
    have hsum : 0 ≤ rest.sum := List.sum_nonneg hrest
    constructor
    · intro h
      rw [List.sum_cons] at h
      have h0 : a = 0 ∧ rest.sum = 0 := (add_eq_zero_iff_of_nonneg ha hsum).mp h
      intro x hx
      rcases List.mem_cons.mp hx with rfl | hx
      · exact h0.1
      · exact ((ih hrest).mp h0.2) x hx
    · intro h
      rw [List.sum_cons, h a (by simp), zero_add]
      exact (ih hrest).mpr fun x hx => h x (by simp [hx])

/-- One orthogonality summand is non-negative, and zero exactly when the
matrix has orthonormal columns. -/
theorem orthogonalityTerm_eq_zero_iff (W : WeightMat) :
    0 ≤ orthogonalityTerm W ∧
      (orthogonalityTerm W = 0 ↔ OrthonormalColumns W) := by
  have houter : 0 ≤ ∑ i ∈ Finset.range W.cols, ∑ j ∈ Finset.range W.cols,
      (gramMatrix W.rows W.entry i j - if i = j then 1 else 0) ^ 2 :=
    Finset.sum_nonneg fun i _ => Finset.sum_nonneg fun j _ => sq_nonneg _
  refine ⟨Real.sqrt_nonneg _, ?_⟩
  rw [orthogonalityTerm, frobNorm, Real.sqrt_eq_zero']
  constructor
  · intro h
    have hS := le_antisymm h houter
    intro i hi j hj
    have h1 := (Finset.sum_eq_zero_iff_of_nonneg
      (fun i _ => Finset.sum_nonneg fun j _ => sq_nonneg _)).mp hS
      i (Finset.mem_range.mpr hi)
    have h2 := (Finset.sum_eq_zero_iff_of_nonneg
      (fun j _ => sq_nonneg _)).mp h1 j (Finset.mem_range.mpr hj)
    have h3 := sub_eq_zero.mp (sq_eq_zero_iff.mp h2)
    simpa [gramMatrix] using h3
  · intro h
    refine le_of_eq (Finset.sum_eq_zero fun i hi => Finset.sum_eq_zero fun j hj => ?_)
    have := h i (Finset.mem_range.mp hi) j (Finset.mem_range.mp hj)
    simp only [gramMatrix]
    rw [this, sub_self]
    exact zero_pow (by norm_num)

/-- C10: `PicoDecoder.get_orthogonality_loss` is the sum, over the value
projection, output projection and second feed-forward projection of every
layer, of the Frobenius norm of `Wᵀ W - I`; it is non-negative, exactly `0`
when every target matrix has orthonormal columns, and strictly positive
otherwise. -/
theorem orthogonality_loss_zero_iff_orthonormal (M : PicoDecoder) :
    M.get_orthogonality_loss = (M.targetMatrices.map orthogonalityTerm).sum ∧
    0 ≤ M.get_orthogonality_loss ∧
    (M.get_orthogonality_loss = 0 ↔ ∀ W ∈ M.targetMatrices, OrthonormalColumns W) ∧
    ((¬ ∀ W ∈ M.targetMatrices, OrthonormalColumns W) → 0 < M.get_orthogonality_loss) := by
  have hterms : ∀ x ∈ M.targetMatrices.map orthogonalityTerm, 0 ≤ x := by
    intro x hx
    rcases List.mem_map.mp hx with ⟨W, -, rfl⟩
    exact (orthogonalityTerm_eq_zero_iff W).1
  have hnn : 0 ≤ M.get_orthogonality_loss := List.sum_nonneg hterms
  have hiff : M.get_orthogonality_loss = 0 ↔
      ∀ W ∈ M.targetMatrices, OrthonormalColumns W := by
    rw [PicoDecoder.get_orthogonality_loss,
      list_sum_eq_zero_iff_of_nonneg _ hterms]
    constructor
    · intro h W hW
      exact (orthogonalityTerm_eq_zero_iff W).2.mp
        (h _ (List.mem_map.mpr ⟨W, hW, rfl⟩))
    · intro h x hx
      rcases List.mem_map.mp hx with ⟨W, hW, rfl⟩
      exact (orthogonalityTerm_eq_zero_iff W).2.mpr (h W hW)
  exact ⟨rfl, hnn, hiff,
    fun hnot => lt_of_le_of_ne hnn fun heq => hnot (hiff.mp heq.symm)⟩

/-- `Attention.forward` with `mask = None` always raises: either the RoPE
shape assertion fires, or `mask.to(queries.dtype)` dereferences `None`. -/
theorem Attention.forward_mask_none_error (self : Attention)
    (d_model seq_len : ℕ) (dev : String) (input : ℕ → ℕ → ℝ)
    (past : Option KVEntry) (u : Bool) :
    ∃ e, self.forward d_model seq_len dev input none past u = .error e := by
  simp only [Attention.forward]
  split
  · exact ⟨_, rfl⟩
  · exact ⟨_, rfl⟩

/-- A block call with `mask = None` propagates the attention error. -/
theorem PicoDecoderBlock.blockForward_mask_none_error (self : PicoDecoderBlock)
    (d_model hidden seq_len : ℕ) (dev : String) (input : ℕ → ℕ → ℝ)
    (past : Option KVEntry) (u : Bool) :
    ∃ e, self.forward d_model hidden seq_len dev input none past u = .error e := by
  obtain ⟨e, he⟩ := Attention.forward_mask_none_error self.attention d_model
    seq_len dev (fun s => self.attention_norm.forward d_model (input s)) past u
  simp only [PicoDecoderBlock.forward, he]
  exact ⟨e, rfl⟩

/-- With `mask = None` and at least one layer, the layer loop errors. -/
theorem PicoDecoder.runLayers_mask_none_error (d_model hidden seq_len : ℕ)
    (dev : String) (past : Option (List (Option KVEntry))) (u : Bool)
    (layer : PicoDecoderBlock) (rest : List PicoDecoderBlock) (idx : ℕ)
    (h : ℕ → ℕ → ℝ) :
    ∃ e, PicoDecoder.runLayers d_model hidden seq_len dev none past u
      (layer :: rest) idx h = .error e := by
  simp only [PicoDecoder.runLayers]
  split
  · exact ⟨_, rfl⟩
  · next layer_past _ =>
    obtain ⟨e, he⟩ := PicoDecoderBlock.blockForward_mask_none_error layer d_model
      hidden seq_len dev h layer_past u
    rw [he]
    exact ⟨e, rfl⟩

/-- A forward call on a single token builds no mask and therefore errors in
the first layer (or earlier, on a malformed cache). -/
theorem PicoDecoder.forward_seq1_error (M : PicoDecoder) (hM : M.layers ≠ [])
    (dev : String) (ids : ℕ → ℕ) (past : Option (List (Option KVEntry)))
    (u : Bool) : ∃ e, M.forward 1 dev ids past u = .error e := by
  obtain ⟨layer, rest, hl⟩ := List.exists_cons_of_ne_nil hM
  simp only [PicoDecoder.forward, hl, gt_iff_lt, lt_irrefl, if_false]
  split
  · exact ⟨_, rfl⟩
  · obtain ⟨e, he⟩ := PicoDecoder.runLayers_mask_none_error M.config.d_model
      M.config.activation_hidden_dim 1 dev past u layer rest 0
      (fun s => M.embedding_proj (ids s))
    rw [he]
    exact ⟨e, rfl⟩

/-- C2: `Attention.forward` dereferences its `Optional` mask unconditionally
(`mask.to(queries.dtype)`); for every call to `PicoDecoder.forward` with
input sequence length 1 — where the stack builds no mask and passes `None`
to every layer — the call fails with an error instead of returning logits. -/
theorem picoDecoder_forward_seq1_always_errors (M : PicoDecoder)
    (hM : M.layers ≠ []) (dev : String) (ids : ℕ → ℕ)
    (past : Option (List (Option KVEntry))) (u : Bool) :
    ∃ e, M.forward 1 dev ids past u = .error e :=
  PicoDecoder.forward_seq1_error M hM dev ids past u

/-- C2 witness: the concrete one-layer decoder errors on a single token. -/
theorem picoDecoder_forward_seq1_always_errors_witness :
    ∃ e, M0.forward 1 "cpu" (fun _ => 0) none false = .error e :=
  picoDecoder_forward_seq1_always_errors M0 (List.cons_ne_nil block0 [])
    "cpu" (fun _ => 0) none false

/-- C1 (code evaluated at the failing input): feeding any non-empty token
sequence one token at a time with caching enabled — the incremental
generation protocol of the cache-equivalence property — errors at the very
first step, because every step is a `seq_len = 1` forward call, which
builds no mask and crashes in `Attention.forward`.  No per-step logits are
ever produced, so they cannot match the full-sequence forward pass. -/
theorem incremental_generation_always_errors (M : PicoDecoder)
    (hM : M.layers ≠ []) (dev : String) (tok : ℕ) (toks : List ℕ) :
    ∃ e, M.incrementalForward dev (tok :: toks) none = .error e := by
  obtain ⟨e, he⟩ := PicoDecoder.forward_seq1_error M hM dev (fun _ => tok)
    none true
  simp only [PicoDecoder.incrementalForward, he]
  exact ⟨e, rfl⟩

/-- C1 witness: incremental generation on the concrete one-layer decoder
errors already on a one-token sequence. -/
theorem incremental_generation_always_errors_witness :
    ∃ e, M0.incrementalForward "cpu" [0] none = .error e :=
  incremental_generation_always_errors M0 (List.cons_ne_nil block0 [])
    "cpu" 0 []

/-- With the grouped-query flag off, the scaled-dot-product core is exactly
the plain multi-head core. -/
theorem sdpa_not_gqa (total head_dim n_rep : ℕ) (Q K V : ℕ → ℕ → ℕ → ℝ)
    (m : ℕ → ℕ → EReal) :
    sdpa total head_dim false n_rep Q K V m =
      plainMultiHeadAttention total head_dim Q K V m := rfl

/-- With the grouped-query flag on, the core equals the plain multi-head
core over keys/values explicitly repeated `n_rep` times along the head
axis (each new head `h` reading old kv head `h / n_rep`). -/
theorem sdpa_gqa_eq_repeated (total head_dim n_rep : ℕ)
    (Q K V : ℕ → ℕ → ℕ → ℝ) (m : ℕ → ℕ → EReal) :
    sdpa total head_dim true n_rep Q K V m =
      plainMultiHeadAttention total head_dim Q
        (fun j h c => K j (h / n_rep) c) (fun j h c => V j (h / n_rep) c) m := rfl

/-- C8: when the replication factor `n_rep` is 1, `Attention.forward`'s
grouped-query output coincides with plain ungrouped multi-head attention on
the same inputs (`Attention.forwardPlain`); and for every `n_rep`,
explicitly repeating keys and values `n_rep` times along the head axis
before the dot product — the code's own `"mps"` fallback path — yields the
same output as the native grouped computation (any non-mps device). -/
theorem attention_gqa_equivalence (self : Attention) (d_model seq_len : ℕ)
    (dev : String) (input : ℕ → ℕ → ℝ) (mask : Option (ℕ → ℕ → EReal))
    (past : Option KVEntry) (u : Bool) :
    (self.n_rep = 1 →
      self.forward d_model seq_len dev input mask past u =
        self.forwardPlain d_model seq_len input mask past u) ∧
    self.forward d_model seq_len "mps" input mask past u =
      self.forward d_model seq_len "cpu" input mask past u := by
  constructor
  · intro hrep
    simp only [Attention.forward, Attention.forwardPlain, hrep]
    norm_num [sdpa_not_gqa]
  · by_cases hrep : self.n_rep > 1
    · have hd : decide (self.n_rep > 1) = true := decide_eq_true hrep
      simp only [Attention.forward, hd]
      simp +decide [sdpa_not_gqa, sdpa_gqa_eq_repeated]
    · have hd : decide (self.n_rep > 1) = false := decide_eq_false hrep
      simp only [Attention.forward, hd]
      simp +decide

/-- With no prior cache and a frequency buffer that covers the sequence,
`RoPE.forward` succeeds and rotates position `s` by table row `s`. -/
theorem RoPE.forward_ok_nocache (r : RoPE) (seq halfDim : ℕ)
    (Q K : ℕ → ℕ → ℕ → ℝ) (hcov : seq ≤ r.freqs_cis.seqLen)
    (hhd : r.freqs_cis.halfDim = halfDim) :
    r.forward seq halfDim Q K 0 =
      .ok (fun s h => viewAsRealPairs (fun i =>
             viewAsComplexPairs (Q s h) i * r.freqs_cis.entry s i),
           fun s h => viewAsRealPairs (fun i =>
             viewAsComplexPairs (K s h) i * r.freqs_cis.entry s i)) := by
  have hg : r.get_freqs_cis seq halfDim 0 (0 + seq) =
      .ok { seqLen := seq, halfDim := halfDim,
            entry := fun p i => r.freqs_cis.entry p i } := by
    rw [RoPE.get_freqs_cis, if_pos]
    · congr 1
      refine FreqsCis.mk.injEq .. ▸ ⟨?_, ?_, ?_⟩
      · simp [FreqsCis.slice]; omega
      · simp [FreqsCis.slice, hhd]
      · simp [FreqsCis.slice]
    · refine ⟨?_, hhd⟩
      simp [FreqsCis.slice]; omega
  simp only [RoPE.forward, hg]

/-- With a present mask, no prior cache and a covering frequency buffer,
`Attention.forward` succeeds and returns `Attention.outNoCache` together
with the concatenation-free cache snapshot. -/
theorem Attention.forward_nocache_eq (a : Attention) (d_model seq : ℕ)
    (dev : String) (x : ℕ → ℕ → ℝ) (m : ℕ → ℕ → EReal) (u : Bool)
    (hcov : seq ≤ a.rope.freqs_cis.seqLen)
    (hhd : a.rope.freqs_cis.halfDim = a.head_dim / 2) :
    a.forward d_model seq dev x (some m) none u =
      .ok (a.outNoCache d_model seq dev x m,
           if u then
             some { len := seq,
                    keys := a.ropedProj d_model a.k_proj x,
                    values := a.valuesProj d_model x }
           else none) := by
  have hrope := RoPE.forward_ok_nocache a.rope seq (a.head_dim / 2)
    (fun s h c => linearF d_model a.q_proj (x s) (h * a.head_dim + c))
    (fun s h c => linearF d_model a.k_proj (x s) (h * a.head_dim + c))
    hcov hhd
  simp only [Attention.forward, hrope, Nat.zero_add]
  rfl

/-- Softmax attention at query position `s` under a mask that blocks every
key position beyond `s` depends only on the query row at `s` and on the
key/value rows at positions `≤ s`: blocked positions contribute a zero
weight to numerator and denominator alike. -/
theorem sdpa_causal_agree (total head_dim : ℕ) (g : Bool) (n_rep : ℕ)
    (Q1 K1 V1 Q2 K2 V2 : ℕ → ℕ → ℕ → ℝ) (m : ℕ → ℕ → EReal) (s : ℕ)
    (hmask : ∀ j, s < j → m s j = ⊥)
    (hQ : ∀ h c, Q1 s h c = Q2 s h c)
    (hK : ∀ j, j ≤ s → ∀ h c, K1 j h c = K2 j h c)
    (hV : ∀ j, j ≤ s → ∀ h c, V1 j h c = V2 j h c) :
    ∀ h c, sdpa total head_dim g n_rep Q1 K1 V1 m s h c =
      sdpa total head_dim g n_rep Q2 K2 V2 m s h c := by
  intro h c
  simp only [sdpa]
  set k0 := (if g = true then h / n_rep else h) with hk0
  have hw : ∀ j,
      expE ((((∑ ch ∈ Finset.range head_dim, Q1 s h ch * K1 j k0 ch) /
          Real.sqrt head_dim : ℝ) : EReal) + m s j) =
      expE ((((∑ ch ∈ Finset.range head_dim, Q2 s h ch * K2 j k0 ch) /
          Real.sqrt head_dim : ℝ) : EReal) + m s j) := by
    intro j
    rcases le_or_lt j s with hj | hj
    · have hsc : (∑ ch ∈ Finset.range head_dim, Q1 s h ch * K1 j k0 ch) =
          ∑ ch ∈ Finset.range head_dim, Q2 s h ch * K2 j k0 ch :=
        Finset.sum_congr rfl fun ch _ => by rw [hQ h ch, hK j hj k0 ch]
      rw [hsc]
    · rw [hmask j hj, EReal.add_bot, EReal.add_bot]
  have hden : (∑ i ∈ Finset.range total,
      expE ((((∑ ch ∈ Finset.range head_dim, Q1 s h ch * K1 i k0 ch) /
          Real.sqrt head_dim : ℝ) : EReal) + m s i)) =
      ∑ i ∈ Finset.range total,
      expE ((((∑ ch ∈ Finset.range head_dim, Q2 s h ch * K2 i k0 ch) /
          Real.sqrt head_dim : ℝ) : EReal) + m s i) :=
    Finset.sum_congr rfl fun i _ => hw i
  refine Finset.sum_congr rfl fun j _ => ?_
  rcases le_or_lt j s with hjs | hjs
  · rw [hw j, hden, hV j hjs k0 c]
  · have hz1 : expE ((((∑ ch ∈ Finset.range head_dim, Q1 s h ch * K1 j k0 ch) /
        Real.sqrt head_dim : ℝ) : EReal) + m s j) = 0 := by
      rw [hmask j hjs, EReal.add_bot]
      simp [expE]
    have hz2 : expE ((((∑ ch ∈ Finset.range head_dim, Q2 s h ch * K2 j k0 ch) /
        Real.sqrt head_dim : ℝ) : EReal) + m s j) = 0 := by
      rw [hmask j hjs, EReal.add_bot]
      simp [expE]
    rw [hz1, hz2]
    simp

/-- The no-cache attention output at a position `s ≤ t` is unchanged when
the input rows at positions `≤ t` are unchanged (causal mask). -/
theorem Attention.outNoCache_agree (a : Attention) (d_model seq t : ℕ)
    (dev : String) (x1 x2 : ℕ → ℕ → ℝ) (m : ℕ → ℕ → EReal)
    (hmask : ∀ s j, s < j → m s j = ⊥)
    (hagree : ∀ s, s ≤ t → x1 s = x2 s) :
    ∀ s, s ≤ t → a.outNoCache d_model seq dev x1 m s =
      a.outNoCache d_model seq dev x2 m s := by
  have hroted : ∀ (proj : ℕ → ℕ → ℝ) (j : ℕ), j ≤ t →
      a.ropedProj d_model proj x1 j = a.ropedProj d_model proj x2 j := by
    intro proj j hj
    unfold Attention.ropedProj
    rw [hagree j hj]
  have hvals : ∀ j : ℕ, j ≤ t →
      a.valuesProj d_model x1 j = a.valuesProj d_model x2 j := by
    intro j hj
    unfold Attention.valuesProj
    rw [hagree j hj]
  intro s hs
  funext o
  simp only [Attention.outNoCache]
  refine congrArg (fun f => linearF (a.n_heads * a.head_dim) a.o_proj f o) ?_
  funext oc
  simp only [Attention.coreNoCache]
  by_cases hc : (decide (a.n_rep > 1) = true) ∧ dev = "mps"
  · simp only [if_pos hc]
    exact sdpa_causal_agree seq a.head_dim false a.n_rep _ _ _ _ _ _ m s
      (hmask s) (fun h c => by rw [hroted a.q_proj s hs])
      (fun j hj h c => by rw [hroted a.k_proj j (hj.trans hs)])
      (fun j hj h c => by rw [hvals j (hj.trans hs)])
      (oc / a.head_dim) (oc % a.head_dim)
  · simp only [if_neg hc]
    exact sdpa_causal_agree seq a.head_dim (decide (a.n_rep > 1)) a.n_rep
      _ _ _ _ _ _ m s (hmask s)
      (fun h c => by rw [hroted a.q_proj s hs])
      (fun j hj h c => by rw [hroted a.k_proj j (hj.trans hs)])
      (fun j hj h c => by rw [hvals j (hj.trans hs)])
      (oc / a.head_dim) (oc % a.head_dim)


/-- With a present mask, no prior cache and a covering frequency buffer,
`PicoDecoderBlock.forward` succeeds and returns `outNoCache` and the
attention cache snapshot of the normed input. -/
theorem PicoDecoderBlock.blockForward_nocache_eq (blk : PicoDecoderBlock)
    (d_model hidden seq : ℕ) (dev : String) (x : ℕ → ℕ → ℝ)
    (m : ℕ → ℕ → EReal) (u : Bool)
    (hcov : seq ≤ blk.attention.rope.freqs_cis.seqLen)
    (hhd : blk.attention.rope.freqs_cis.halfDim = blk.attention.head_dim / 2) :
    blk.forward d_model hidden seq dev x (some m) none u =
      .ok (blk.outNoCache d_model hidden seq dev x m,
           if u then
             some { len := seq,
                    keys := blk.attention.ropedProj d_model blk.attention.k_proj
                      (fun s => blk.attention_norm.forward d_model (x s)),
                    values := blk.attention.valuesProj d_model
                      (fun s => blk.attention_norm.forward d_model (x s)) }
           else none) := by
  have hatt := Attention.forward_nocache_eq blk.attention d_model seq dev
    (fun s => blk.attention_norm.forward d_model (x s)) m u hcov hhd
  simp only [PicoDecoderBlock.forward, hatt]
  rfl

/-- The no-cache block output at a position `s ≤ t` is unchanged when the
input rows at positions `≤ t` are unchanged. -/
theorem PicoDecoderBlock.blockOutNoCache_agree (blk : PicoDecoderBlock)
    (d_model hidden seq t : ℕ) (dev : String) (x1 x2 : ℕ → ℕ → ℝ)
    (m : ℕ → ℕ → EReal) (hmask : ∀ s j, s < j → m s j = ⊥)
    (hagree : ∀ s, s ≤ t → x1 s = x2 s) :
    ∀ s, s ≤ t → blk.outNoCache d_model hidden seq dev x1 m s =
      blk.outNoCache d_model hidden seq dev x2 m s := by
  have hnormed : ∀ s, s ≤ t →
      (fun q => blk.attention_norm.forward d_model (x1 q)) s =
        (fun q => blk.attention_norm.forward d_model (x2 q)) s := by
    intro s hs
    simp only [hagree s hs]
  have hatt := Attention.outNoCache_agree blk.attention d_model seq t dev
    (fun q => blk.attention_norm.forward d_model (x1 q))
    (fun q => blk.attention_norm.forward d_model (x2 q)) m hmask hnormed
  intro s hs
  simp only [PicoDecoderBlock.outNoCache]
  have hh : (fun i => x1 s i + blk.attention.outNoCache d_model seq dev
      (fun q => blk.attention_norm.forward d_model (x1 q)) m s i) =
      fun i => x2 s i + blk.attention.outNoCache d_model seq dev
      (fun q => blk.attention_norm.forward d_model (x2 q)) m s i := by
    rw [hagree s hs, hatt s hs]
  exact congrArg (fun g : ℕ → ℝ => fun i =>
    g i + blk.swiglu.forward d_model hidden
      (blk.swiglu_norm.forward d_model g) i) hh

/-- With a present mask, no prior cache and covering frequency buffers in
every layer, the layer loop succeeds and computes `runLayersOut`. -/
theorem PicoDecoder.runLayers_nocache_ok (d_model hidden seq : ℕ)
    (dev : String) (m : ℕ → ℕ → EReal) (u : Bool) :
    ∀ layers : List PicoDecoderBlock,
      (∀ b ∈ layers, seq ≤ b.attention.rope.freqs_cis.seqLen ∧
        b.attention.rope.freqs_cis.halfDim = b.attention.head_dim / 2) →
      ∀ (idx : ℕ) (h : ℕ → ℕ → ℝ),
      ∃ cc, PicoDecoder.runLayers d_model hidden seq dev (some m) none u
          layers idx h =
        .ok (PicoDecoder.runLayersOut d_model hidden seq dev m layers h, cc) := by
  intro layers
  induction layers with
  | nil => exact fun _ idx h => ⟨[], rfl⟩
  | cons layer rest ih =>
    intro hcov idx h
    have hc1 := hcov layer (List.mem_cons_self _ _)
    have hblk := PicoDecoderBlock.blockForward_nocache_eq layer d_model hidden seq
      dev h m u hc1.1 hc1.2
    obtain ⟨cc, hcc⟩ := ih (fun b hb => hcov b (List.mem_cons_of_mem _ hb))
      (idx + 1) (layer.outNoCache d_model hidden seq dev h m)
    exact ⟨_, by
      simp only [PicoDecoder.runLayers, hblk, hcc, PicoDecoder.runLayersOut]
      rfl⟩

/-- The hidden state after the layer loop at a position `s ≤ t` is
unchanged when the initial rows at positions `≤ t` are unchanged. -/
theorem PicoDecoder.runLayersOut_agree (d_model hidden seq t : ℕ)
    (dev : String) (m : ℕ → ℕ → EReal) (hmask : ∀ s j, s < j → m s j = ⊥) :
    ∀ (layers : List PicoDecoderBlock) (h1 h2 : ℕ → ℕ → ℝ),
      (∀ s, s ≤ t → h1 s = h2 s) →
      ∀ s, s ≤ t →
        PicoDecoder.runLayersOut d_model hidden seq dev m layers h1 s =
          PicoDecoder.runLayersOut d_model hidden seq dev m layers h2 s := by
  intro layers
  induction layers with
  | nil => exact fun h1 h2 hag s hs => hag s hs
  | cons layer rest ih =>
    intro h1 h2 hag s hs
    simp only [PicoDecoder.runLayersOut]
    exact ih _ _ (layer.blockOutNoCache_agree d_model hidden seq t dev h1 h2 m
      hmask hag) s hs

/-- C5: for every input batch with no prior cache, the logits
`PicoDecoder.forward` produces at a position `s ≤ t` are unchanged under
any perturbation of the input token ids at positions strictly greater than
`t` — two-run noninterference via the strictly-upper-triangular
negative-infinity mask.  (`1 < seq` because a single-token call builds no
mask; the frequency buffers must cover the sequence for RoPE to succeed.) -/
theorem picoDecoder_causal_noninterference (M : PicoDecoder) (seq t : ℕ)
    (dev : String) (ids1 ids2 : ℕ → ℕ) (u : Bool) (hseq : 1 < seq)
    (hcov : ∀ b ∈ M.layers, seq ≤ b.attention.rope.freqs_cis.seqLen ∧
        b.attention.rope.freqs_cis.halfDim = b.attention.head_dim / 2)
    (hagree : ∀ s, s ≤ t → ids1 s = ids2 s) :
    ∃ out1 out2,
      M.forward seq dev ids1 none u = .ok out1 ∧
      M.forward seq dev ids2 none u = .ok out2 ∧
      ∀ s, s ≤ t → out1.1 s = out2.1 s := by
  have hmask : ∀ s j, s < j →
      (fun i j => if i + 1 ≤ j then (⊥ : EReal) else 0) s j = ⊥ := by
    intro s j hsj
    exact if_pos hsj
  obtain ⟨cc1, h1⟩ := PicoDecoder.runLayers_nocache_ok M.config.d_model
    M.config.activation_hidden_dim seq dev
    (fun i j => if i + 1 ≤ j then (⊥ : EReal) else 0) u M.layers hcov 0
    (fun s => M.embedding_proj (ids1 s))
  obtain ⟨cc2, h2⟩ := PicoDecoder.runLayers_nocache_ok M.config.d_model
    M.config.activation_hidden_dim seq dev
    (fun i j => if i + 1 ≤ j then (⊥ : EReal) else 0) u M.layers hcov 0
    (fun s => M.embedding_proj (ids2 s))
  have hH := PicoDecoder.runLayersOut_agree M.config.d_model
    M.config.activation_hidden_dim seq t dev
    (fun i j => if i + 1 ≤ j then (⊥ : EReal) else 0) hmask M.layers
    (fun s => M.embedding_proj (ids1 s)) (fun s => M.embedding_proj (ids2 s))
    (fun s hs => by simp only [hagree s hs])
  refine ⟨((fun s => linearF M.config.d_model M.de_embedding_proj
      (M.output_norm.forward M.config.d_model
        (PicoDecoder.runLayersOut M.config.d_model M.config.activation_hidden_dim
          seq dev (fun i j => if i + 1 ≤ j then ⊥ else 0) M.layers
          (fun s => M.embedding_proj (ids1 s)) s))),
     if u then some cc1 else none),
    ((fun s => linearF M.config.d_model M.de_embedding_proj
      (M.output_norm.forward M.config.d_model
        (PicoDecoder.runLayersOut M.config.d_model M.config.activation_hidden_dim
          seq dev (fun i j => if i + 1 ≤ j then ⊥ else 0) M.layers
          (fun s => M.embedding_proj (ids2 s)) s))),
     if u then some cc2 else none), ?_, ?_, ?_⟩
  · simp only [PicoDecoder.forward, if_pos hseq, h1]
  · simp only [PicoDecoder.forward, if_pos hseq, h2]
  · intro s hs
    simp only
    rw [hH s hs]

/-- C5 witness: on the concrete one-layer decoder, two inputs of length 2
that agree at position 0 produce logits that agree at position 0. -/
theorem picoDecoder_causal_noninterference_witness :
    ∃ out1 out2,
      M0.forward 2 "cpu" (fun _ => 0) none false = .ok out1 ∧
      M0.forward 2 "cpu" (fun s => if s = 0 then 0 else 1) none false = .ok out2 ∧
      ∀ s, s ≤ 0 → out1.1 s = out2.1 s :=
  picoDecoder_causal_noninterference M0 2 0 "cpu" (fun _ => 0)
    (fun s => if s = 0 then 0 else 1) false (by norm_num)
    (by
      intro b hb
      have hb0 : b = block0 := by simpa [M0] using hb
      subst hb0
      refine ⟨?_, ?_⟩
      · simp [block0, attention0, rope0, setupFreqsCis]
      · simp [block0, attention0, rope0, setupFreqsCis])
    (by
      intro s hs
      have h0 : s = 0 := Nat.le_zero.mp hs
      subst h0
      simp)
